import Mathlib

/-!
Verification of the Mora Bets odds pipeline against its natural-language
specification.  Python sources are shallowly embedded: machine floats are
modelled by exact rationals, Python dicts by insertion-ordered association
lists, and the upstream HTTP world by explicit sequences of attempt
outcomes.  Each embedded definition mirrors one source function and keeps
its name (leading underscores dropped).
-/

/-! ## Probability math, from src/novig.py -/

/-- Embedding of `american_to_prob` (src/novig.py, lines 3-8).
`None` odds and zero odds are undefined; positive odds give
`100/(odds+100)`; negative odds give `(-odds)/((-odds)+100)`. -/
def american_to_prob (odds : Option ℤ) : Option ℚ :=
  match odds with
  | none => none
  | some o =>
    if o = 0 then none
    else if 0 < o then some (100 / ((o : ℚ) + 100))
    else some ((-o : ℚ) / ((-o : ℚ) + 100))

/-- Round half to even at integer precision: the model of the rounding mode
used by Python's builtin `round`. -/
def rhe (x : ℚ) : ℤ :=
  let k := ⌊x⌋
  let f := x - (k : ℚ)
  if f < 1/2 then k
  else if 1/2 < f then k + 1
  else if k % 2 = 0 then k else k + 1

/-- Model of Python's `round(x, 4)` on exact rationals. -/
def round4 (x : ℚ) : ℚ := (rhe (x * 10000) : ℚ) / 10000

/-- Embedding of the body of `novig_two_way` after both implied
probabilities are available (src/novig.py, lines 15-18). -/
def novig_from_probs (p_over p_under : ℚ) : Option ℚ × Option ℚ :=
  let s := p_over + p_under
  if s ≤ 0 then (none, none)
  else (some (round4 (p_over / s)), some (round4 (p_under / s)))

/-- Embedding of `novig_two_way` (src/novig.py, lines 10-18). -/
def novig_two_way (over_odds under_odds : Option ℤ) : Option ℚ × Option ℚ :=
  match american_to_prob over_odds, american_to_prob under_odds with
  | some p_over, some p_under => novig_from_probs p_over p_under
  | _, _ => (none, none)

/-! ## Edge threshold, from src/bets4app.py -/

/-- Embedding of `_edge_threshold_pp` (src/bets4app.py, lines 526-533);
the configured `AI_MIN_EDGE` value is the argument. -/
def edge_threshold_pp (v : ℚ) : ℚ :=
  if v ≤ 1 then v * 100 else v

/-! ## Facts about half-even rounding -/

theorem rhe_eq_ite (y : ℚ) :
    rhe y = if Int.fract y < 1/2 then ⌊y⌋
      else if 1/2 < Int.fract y then ⌊y⌋ + 1
      else if ⌊y⌋ % 2 = 0 then ⌊y⌋ else ⌊y⌋ + 1 := rfl

theorem rhe_floor_le (y : ℚ) : ⌊y⌋ ≤ rhe y ∧ rhe y ≤ ⌊y⌋ + 1 := by
  rw [rhe_eq_ite]
  split_ifs <;> omega

theorem rhe_pair (y : ℚ) : rhe y + rhe (10000 - y) = 10000 := by
  have hf0 : 0 ≤ Int.fract y := Int.fract_nonneg y
  have hf1 : Int.fract y < 1 := Int.fract_lt_one y
  have hfd : Int.fract y = y - ⌊y⌋ := rfl
  by_cases h : Int.fract y = 0
  · have hy : y = (⌊y⌋ : ℚ) := by rw [hfd] at h; linarith
    have h2 : (10000:ℚ) - y = ((10000 - ⌊y⌋ : ℤ) : ℚ) := by
      nth_rewrite 1 [hy]
      push_cast
      ring
    rw [rhe_eq_ite, rhe_eq_ite, h, h2, Int.fract_intCast, Int.floor_intCast]
    norm_num
  · have hfpos : 0 < Int.fract y := lt_of_le_of_ne hf0 (Ne.symm h)
    have hylt : (⌊y⌋ : ℚ) < y := by rw [hfd] at hfpos; linarith
    have hyub : y < (⌊y⌋ : ℚ) + 1 := Int.lt_floor_add_one y
    have hfl2 : ⌊(10000:ℚ) - y⌋ = 10000 - ⌊y⌋ - 1 := by
      rw [Int.floor_eq_iff]
      constructor
      · push_cast
        linarith
      · push_cast
        linarith
    have hfr2 : Int.fract ((10000:ℚ) - y) = 1 - Int.fract y := by
      have h3 : Int.fract ((10000:ℚ) - y) = (10000 - y) - ⌊(10000:ℚ) - y⌋ := rfl
      rw [h3, hfl2, hfd]
      push_cast
      ring
    rw [rhe_eq_ite, rhe_eq_ite, hfl2, hfr2]
    split_ifs <;> first | omega | (exfalso; linarith)

theorem rhe_nonneg_of (y : ℚ) (h0 : 0 ≤ y) : 0 ≤ rhe y := by
  have h1 := (rhe_floor_le y).1
  have h2 := Int.floor_nonneg.mpr h0
  omega

theorem rhe_le_of (y : ℚ) (h1 : y < 10000) : rhe y ≤ 10000 := by
  have h2 := (rhe_floor_le y).2
  have h3 : ⌊y⌋ < 10000 := by
    rw [Int.floor_lt]
    exact_mod_cast h1
  omega

theorem round4_pair (x : ℚ) : round4 x + round4 (1 - x) = 1 := by
  unfold round4
  have h : (1 - x) * 10000 = 10000 - x * 10000 := by ring
  rw [h]
  have h1 := rhe_pair (x * 10000)
  have h2 : ((rhe (x * 10000) : ℚ) + (rhe (10000 - x * 10000) : ℚ)) = 10000 := by
    exact_mod_cast h1
  field_simp
  linarith

theorem round4_mem (x : ℚ) (h0 : 0 ≤ x) (h1 : x < 1) : 0 ≤ round4 x ∧ round4 x ≤ 1 := by
  unfold round4
  have ha := rhe_nonneg_of (x * 10000) (by positivity)
  have hb := rhe_le_of (x * 10000) (by linarith)
  constructor
  · apply div_nonneg _ (by norm_num)
    exact_mod_cast ha
  · rw [div_le_one (by norm_num)]
    exact_mod_cast hb

theorem american_to_prob_pos (o : ℤ) (ho : o ≠ 0) :
    ∃ p : ℚ, american_to_prob (some o) = some p ∧ 0 < p ∧ p < 1 := by
  rcases lt_or_gt_of_ne ho with hneg | hpos
  · have h1 : (0:ℚ) < -(o : ℚ) := by
      have : (o : ℚ) < 0 := by exact_mod_cast hneg
      linarith
    refine ⟨-(o : ℚ) / (-(o : ℚ) + 100), ?_, ?_, ?_⟩
    · simp only [american_to_prob]
      rw [if_neg ho, if_neg (by omega : ¬ 0 < o)]
    · apply div_pos h1
      linarith
    · rw [div_lt_one (by linarith)]
      linarith
  · have h1 : (0:ℚ) < (o : ℚ) := by exact_mod_cast hpos
    refine ⟨100 / ((o : ℚ) + 100), ?_, ?_, ?_⟩
    · simp only [american_to_prob]
      rw [if_neg ho, if_pos hpos]
    · apply div_pos (by norm_num)
      linarith
    · rw [div_lt_one (by linarith)]
      linarith

/-! ## Claim theorems for the probability math -/

/-- C9: for every odds value, `american_to_prob` returns `100/(odds+100)`
for positive odds, `|odds|/(|odds|+100)` for negative odds, and is
undefined for zero or missing odds; golden values
`american_to_prob 150 = 0.4` and `american_to_prob (-150) = 0.6`. -/
theorem american_to_prob_cases :
    (∀ o : ℤ, 0 < o → american_to_prob (some o) = some (100 / ((o : ℚ) + 100)))
  ∧ (∀ o : ℤ, o < 0 →
      american_to_prob (some o) = some ((|o| : ℚ) / ((|o| : ℚ) + 100)))
  ∧ american_to_prob none = none
  ∧ american_to_prob (some 0) = none
  ∧ american_to_prob (some 150) = some (2/5)
  ∧ american_to_prob (some (-150)) = some (3/5) := by
  refine ⟨?_, ?_, rfl, by norm_num [american_to_prob], ?_, ?_⟩
  · intro o ho
    simp only [american_to_prob]
    rw [if_neg (by omega), if_pos ho]
  · intro o ho
    have ho2 : (o : ℚ) < 0 := by exact_mod_cast ho
    have habs : |(o : ℚ)| = -(o : ℚ) := abs_of_neg ho2
    simp only [american_to_prob]
    rw [if_neg (by omega), if_neg (by omega : ¬ 0 < o), habs]
  · norm_num [american_to_prob]
  · norm_num [american_to_prob]

/-- Witness for C9 at odds +150 and -150. -/
theorem american_to_prob_cases_witness :
    american_to_prob (some 150) = some (100 / ((150 : ℚ) + 100))
  ∧ american_to_prob (some (-150)) = some ((|(-150 : ℤ)| : ℚ) / ((|(-150 : ℤ)| : ℚ) + 100)) :=
  ⟨american_to_prob_cases.1 150 (by norm_num),
   american_to_prob_cases.2.1 (-150) (by norm_num)⟩

theorem novig_undef_left (o1 o2 : Option ℤ) (h : american_to_prob o1 = none) :
    novig_two_way o1 o2 = (none, none) := by
  rw [novig_two_way.eq_def, h]

theorem novig_undef_right (o1 o2 : Option ℤ) (h : american_to_prob o2 = none) :
    novig_two_way o1 o2 = (none, none) := by
  rw [novig_two_way.eq_def, h]
  cases american_to_prob o1 <;> rfl


/-- C8: `novig_two_way` returns the undefined pair when either input is
missing or zero, or when the sum of the implied probabilities is not
positive; golden values for `(None, -110)` and `(0, -110)`. -/
theorem novig_two_way_undefined_cases :
    (∀ o1 o2 : Option ℤ, (o1 = none ∨ o1 = some 0 ∨ o2 = none ∨ o2 = some 0) →
      novig_two_way o1 o2 = (none, none))
  ∧ (∀ p q : ℚ, p + q ≤ 0 → novig_from_probs p q = (none, none))
  ∧ novig_two_way none (some (-110)) = (none, none)
  ∧ novig_two_way (some 0) (some (-110)) = (none, none) := by
  refine ⟨?_, ?_, rfl, by norm_num [novig_two_way, american_to_prob]⟩
  · intro o1 o2 h
    have hz : american_to_prob (some 0) = none := by norm_num [american_to_prob]
    rcases h with h | h | h | h <;> subst h
    · exact novig_undef_left none o2 rfl
    · exact novig_undef_left (some 0) o2 hz
    · exact novig_undef_right o1 none rfl
    · exact novig_undef_right o1 (some 0) hz
  · intro p q h
    simp only [novig_from_probs]
    rw [if_pos h]

/-- Witness for C8: missing and zero odds both give the undefined pair,
and a non-positive probability sum gives the undefined pair. -/
theorem novig_two_way_undefined_cases_witness :
    novig_two_way none (some (-110)) = (none, none)
  ∧ novig_two_way (some 0) (some (-110)) = (none, none)
  ∧ novig_from_probs 0 0 = (none, none) :=
  ⟨novig_two_way_undefined_cases.1 none (some (-110)) (Or.inl rfl),
   novig_two_way_undefined_cases.1 (some 0) (some (-110)) (Or.inr (Or.inl rfl)),
   novig_two_way_undefined_cases.2.1 0 0 (by norm_num)⟩

/-- C7: the edge-threshold normalization multiplies a configured value
at most 1 by 100 and keeps a value above 1 unchanged; both 0.06 and 6
normalize to 6 percentage points. -/
theorem edge_threshold_pp_spec :
    (∀ v : ℚ, v ≤ 1 → edge_threshold_pp v = v * 100)
  ∧ (∀ v : ℚ, 1 < v → edge_threshold_pp v = v)
  ∧ edge_threshold_pp (6/100) = 6
  ∧ edge_threshold_pp 6 = 6 := by
  refine ⟨?_, ?_, by norm_num [edge_threshold_pp], by norm_num [edge_threshold_pp]⟩
  · intro v hv
    simp only [edge_threshold_pp]
    rw [if_pos hv]
  · intro v hv
    simp only [edge_threshold_pp]
    rw [if_neg (by linarith)]

/-- Witness for C7 at the two golden configured values. -/
theorem edge_threshold_pp_spec_witness :
    edge_threshold_pp (6/100) = (6/100 : ℚ) * 100 ∧ edge_threshold_pp 6 = 6 :=
  ⟨edge_threshold_pp_spec.1 (6/100) (by norm_num),
   edge_threshold_pp_spec.2.1 6 (by norm_num)⟩

/-- C4 counterexample: for the valid non-zero odds pair
(+10000000, -110), `novig_two_way` returns exactly (0, 1) after the
4-decimal rounding performed by the source, so the two probabilities do
not lie strictly between 0 and 1. -/
theorem novig_two_way_not_strictly_interior :
    novig_two_way (some 10000000) (some (-110)) = (some 0, some 1)
  ∧ ¬ (0 < (0:ℚ) ∧ (0:ℚ) < 1)
  ∧ ¬ (0 < (1:ℚ) ∧ (1:ℚ) < 1) := by
  refine ⟨?_, by norm_num, by norm_num⟩
  norm_num [novig_two_way, american_to_prob, novig_from_probs, round4, rhe]

/-- C4 (amended): for every pair of non-zero integer odds the two
returned probabilities are defined, sum to exactly 1 (hence within 1e-9),
and lie in the closed interval [0, 1]; the boundary can be attained, so
the open strict interval claim is weakened to the closed one.
In particular `novig_two_way (-110) (-110) = (0.5, 0.5)`. -/
theorem novig_two_way_sum_one_bounds :
    (∀ o1 o2 : ℤ, o1 ≠ 0 → o2 ≠ 0 → ∃ a b : ℚ,
      novig_two_way (some o1) (some o2) = (some a, some b)
      ∧ a + b = 1 ∧ 0 ≤ a ∧ a ≤ 1 ∧ 0 ≤ b ∧ b ≤ 1)
  ∧ novig_two_way (some (-110)) (some (-110)) = (some (1/2), some (1/2)) := by
  constructor
  · intro o1 o2 h1 h2
    obtain ⟨p, hp, hp0, hp1⟩ := american_to_prob_pos o1 h1
    obtain ⟨q, hq, hq0, hq1⟩ := american_to_prob_pos o2 h2
    have hs : 0 < p + q := by linarith
    have hq' : q / (p + q) = 1 - p / (p + q) := by
      field_simp
    refine ⟨round4 (p / (p + q)), round4 (q / (p + q)), ?_, ?_, ?_, ?_, ?_, ?_⟩
    · simp only [novig_two_way, hp, hq, novig_from_probs]
      rw [if_neg (by linarith)]
    · rw [hq']
      exact round4_pair (p / (p + q))
    · exact (round4_mem (p / (p + q)) (by positivity)
        (by rw [div_lt_one hs]; linarith)).1
    · exact (round4_mem (p / (p + q)) (by positivity)
        (by rw [div_lt_one hs]; linarith)).2
    · exact (round4_mem (q / (p + q)) (by positivity)
        (by rw [div_lt_one hs]; linarith)).1
    · exact (round4_mem (q / (p + q)) (by positivity)
        (by rw [div_lt_one hs]; linarith)).2
  · norm_num [novig_two_way, american_to_prob, novig_from_probs, round4, rhe]

/-- Witness for C4 (amended) at odds (-110, +200). -/
theorem novig_two_way_sum_one_bounds_witness :
    ∃ a b : ℚ, novig_two_way (some (-110)) (some 200) = (some a, some b)
      ∧ a + b = 1 ∧ 0 ≤ a ∧ a ≤ 1 ∧ 0 ≤ b ∧ b ≤ 1 :=
  novig_two_way_sum_one_bounds.1 (-110) 200 (by norm_num) (by norm_num)

/-! ## Resilient fetch client, from src/odds_client_ncaa.py -/

/-- Outcome of one `session.get` call: an HTTP response with a status code
and a parsed payload, or a network-level request exception. -/
inductive Attempt where
  | resp (status : ℕ) (payload : String)
  | netErr (msg : String)
deriving DecidableEq

/-- Diagnostic recorded in `last_err` by `_get_json`
(src/odds_client_ncaa.py, lines 70 and 86): the 429 backoff message, the
string of the `HTTPError` raised by `raise_for_status`, or the string of
another `RequestException`. -/
inductive Diag where
  | backoff429 (attempt total : ℕ)
  | httpError (status : ℕ)
  | requestError (msg : String)
deriving DecidableEq

/-- Attempts that land in the retry path of `_get_json`: an HTTP 429, any
status for which `raise_for_status` raises (the raised `HTTPError` is a
subclass of `RequestException`, so the retry handler catches it), and a
network error. -/
def retryable (a : Attempt) : Prop :=
  match a with
  | .resp s _ => s = 429 ∨ (400 ≤ s ∧ s < 600)
  | .netErr _ => True

instance (a : Attempt) : Decidable (retryable a) := by
  unfold retryable
  cases a <;> infer_instance

/-- The diagnostic `_get_json` records for a retried attempt `i` out of
`total`. -/
def diagFor (a : Attempt) (i total : ℕ) : Diag :=
  match a with
  | .resp s _ => if s = 429 then .backoff429 (i + 1) total else .httpError s
  | .netErr m => .requestError m

/-- The retry loop of `_get_json` (src/odds_client_ncaa.py, lines 55-91).
`remaining` counts loop iterations left (initially `MAX_RETRIES`), `i` is
the current attempt index, `lastErr` the running `last_err`; `outcomes i`
is what the i-th `session.get` produces.  A 429 response backs off and
retries; any other error status makes `raise_for_status` raise a
`RequestException`, which the handler catches and retries; a network error
retries; a success returns the payload; an exhausted loop raises the
`RuntimeError` carrying the final `last_err`. -/
def get_json_loop (outcomes : ℕ → Attempt) (total : ℕ) :
    ℕ → ℕ → Option Diag → Except (Option Diag) String
  | 0, _, lastErr => .error lastErr
  | remaining + 1, i, _ =>
    match outcomes i with
    | .resp s payload =>
      if s = 429 then
        get_json_loop outcomes total remaining (i + 1) (some (.backoff429 (i + 1) total))
      else if 400 ≤ s ∧ s < 600 then
        get_json_loop outcomes total remaining (i + 1) (some (.httpError s))
      else .ok payload
    | .netErr m =>
      get_json_loop outcomes total remaining (i + 1) (some (.requestError m))

/-- `_get_json` with `MAX_RETRIES = total` attempts (default 4). -/
def get_json (outcomes : ℕ → Attempt) (total : ℕ) : Except (Option Diag) String :=
  get_json_loop outcomes total total 0 none

theorem get_json_loop_step_retry (outcomes : ℕ → Attempt) (total m i : ℕ)
    (lastErr : Option Diag) (hr : retryable (outcomes i)) :
    get_json_loop outcomes total (m + 1) i lastErr
      = get_json_loop outcomes total m (i + 1) (some (diagFor (outcomes i) i total)) := by
  cases h : outcomes i with
  | resp s payload =>
    rw [h] at hr
    unfold retryable at hr
    rcases eq_or_ne s 429 with h429 | h429
    · subst h429
      simp [get_json_loop, h, diagFor]
    · have hrange : 400 ≤ s ∧ s < 600 := hr.resolve_left h429
      simp [get_json_loop, h, h429, hrange, diagFor]
  | netErr msg =>
    simp [get_json_loop, h, diagFor]

theorem get_json_loop_step_success (outcomes : ℕ → Attempt) (total m i : ℕ)
    (lastErr : Option Diag) (s : ℕ) (payload : String)
    (hresp : outcomes i = .resp s payload) (hnr : ¬ retryable (outcomes i)) :
    get_json_loop outcomes total (m + 1) i lastErr = .ok payload := by
  rw [hresp] at hnr
  unfold retryable at hnr
  have h1 : ¬ s = 429 := fun hc => hnr (Or.inl hc)
  have h2 : ¬ (400 ≤ s ∧ s < 600) := fun hc => hnr (Or.inr hc)
  simp [get_json_loop, hresp, h1, h2]

theorem get_json_loop_exhaust (outcomes : ℕ → Attempt) (total : ℕ) :
    ∀ n i lastErr, (∀ j, i ≤ j → j ≤ i + n → retryable (outcomes j)) →
    get_json_loop outcomes total (n + 1) i lastErr
      = .error (some (diagFor (outcomes (i + n)) (i + n) total)) := by
  intro n
  induction n with
  | zero =>
    intro i lastErr hall
    have hi := hall i le_rfl (by omega)
    rw [get_json_loop_step_retry outcomes total 0 i lastErr hi]
    unfold get_json_loop
    norm_num
  | succ n ih =>
    intro i lastErr hall
    have hi := hall i le_rfl (by omega)
    rw [get_json_loop_step_retry outcomes total (n + 1) i lastErr hi]
    rw [ih (i + 1) _ (fun j h1 h2 => hall j (by omega) (by omega))]
    have harith : i + 1 + n = i + (n + 1) := by omega
    rw [harith]

theorem get_json_loop_success (outcomes : ℕ → Attempt) (total : ℕ) :
    ∀ m i lastErr j s payload, i ≤ j → j < i + m →
    (∀ l, i ≤ l → l < j → retryable (outcomes l)) →
    outcomes j = .resp s payload → ¬ retryable (outcomes j) →
    get_json_loop outcomes total m i lastErr = .ok payload := by
  intro m
  induction m with
  | zero =>
    intro i lastErr j s payload h1 h2
    omega
  | succ m ih =>
    intro i lastErr j s payload h1 h2 hall hresp hnr
    by_cases hij : j = i
    · subst hij
      exact get_json_loop_step_success outcomes total m j lastErr s payload hresp hnr
    · have hlt : i < j := by omega
      rw [get_json_loop_step_retry outcomes total m i lastErr (hall i le_rfl hlt)]
      exact ih (i + 1) _ j s payload (by omega) (by omega)
        (fun l hl1 hl2 => hall l (by omega) hl2) hresp hnr

/-- C2 counterexample: a non-429 HTTP error response (status 500 on the
first attempt) does not fail the call: the handler catches the raised
error and retries, and the call succeeds with the second attempt's
payload. -/
theorem get_json_http_error_retried :
    get_json (fun i => if i = 0 then Attempt.resp 500 "boom" else Attempt.resp 200 "ok") 4
      = .ok "ok"
  ∧ retryable (Attempt.resp 500 "boom")
  ∧ (Attempt.resp 500 "boom" ≠ Attempt.resp 429 "boom") := by
  refine ⟨rfl, ?_, by simp⟩
  unfold retryable
  norm_num

/-- C2 (amended): every retryable attempt — HTTP 429, any non-429 HTTP
error status raised by `raise_for_status` (the raised error is itself a
`RequestException`, so it is caught and retried, not failed immediately),
or a transient network error — is retried up to the configured limit
(default 4 attempts); the first successful attempt inside the limit
returns its payload; exhausting all attempts raises a failure carrying
the diagnostic of the last attempt. -/
theorem get_json_retry_policy :
    (∀ (outcomes : ℕ → Attempt) (total : ℕ), 0 < total →
      (∀ j, j < total → retryable (outcomes j)) →
      get_json outcomes total
        = .error (some (diagFor (outcomes (total - 1)) (total - 1) total)))
  ∧ (∀ (outcomes : ℕ → Attempt) (total j s : ℕ) (payload : String), j < total →
      (∀ l, l < j → retryable (outcomes l)) →
      outcomes j = .resp s payload → ¬ retryable (outcomes j) →
      get_json outcomes total = .ok payload) := by
  constructor
  · intro outcomes total ht hall
    obtain ⟨n, rfl⟩ : ∃ n, total = n + 1 := ⟨total - 1, by omega⟩
    unfold get_json
    rw [get_json_loop_exhaust outcomes (n + 1) n 0 none (fun j h1 h2 => hall j (by omega))]
    norm_num
  · intro outcomes total j s payload hj hall hresp hnr
    unfold get_json
    exact get_json_loop_success outcomes total total 0 none j s payload (by omega) (by omega)
      (fun l h1 h2 => hall l h2) hresp hnr

/-- Witness for C2 (amended): four straight network errors exhaust the
default limit and report the last diagnostic; an error followed by a 200
returns the 200 payload. -/
theorem get_json_retry_policy_witness :
    get_json (fun _ => Attempt.netErr "timeout") 4
      = .error (some (Diag.requestError "timeout"))
  ∧ get_json (fun i => if i = 0 then Attempt.netErr "timeout" else Attempt.resp 200 "payload") 4
      = .ok "payload" := by
  constructor
  · have h := get_json_retry_policy.1 (fun _ => Attempt.netErr "timeout") 4 (by norm_num)
      (fun j hj => by trivial)
    simpa [diagFor] using h
  · exact get_json_retry_policy.2
      (fun i => if i = 0 then Attempt.netErr "timeout" else Attempt.resp 200 "payload")
      4 1 200 "payload" (by norm_num)
      (fun l hl => by
        have hl0 : l = 0 := by omega
        subst hl0
        simp [retryable])
      (by norm_num)
      (by norm_num [retryable])

/-! ## Slot cache, from src/universal_cache.py

Local time is modelled as a count of whole seconds `t : ℕ` in the
configured time zone; `t / 86400` is the calendar date and
`t % 86400 / 3600` the local hour.  Values are JSON values and the
in-process backend is modelled; `json.dumps`/`json.loads` round-trip is
the identity on this value type. -/

/-- A stored JSON value.  `null` matters because `get_json` returns the
loaded value directly and the caller treats `None` as a miss. -/
inductive JVal where
  | null
  | str (s : String)
  | num (n : ℤ)
deriving DecidableEq

/-- The boundary instant computed by `current_slot`
(src/universal_cache.py, lines 34-49): hours before 8 roll to 08:00 of the
same day, before 13 to 13:00, before 18 to 18:00, and later hours to 08:00
of the next day. -/
def next_boundary (t : ℕ) : ℕ :=
  if t % 86400 / 3600 < 8 then t / 86400 * 86400 + 8 * 3600
  else if t % 86400 / 3600 < 13 then t / 86400 * 86400 + 13 * 3600
  else if t % 86400 / 3600 < 18 then t / 86400 * 86400 + 18 * 3600
  else t / 86400 * 86400 + 86400 + 8 * 3600

/-- The slot name computed by `current_slot`. -/
def slot_name (t : ℕ) : String :=
  if t % 86400 / 3600 < 8 then "night"
  else if t % 86400 / 3600 < 13 then "morning"
  else if t % 86400 / 3600 < 18 then "afternoon"
  else "night"

/-- Embedding of `_ttl_to_next_boundary` (src/universal_cache.py, lines
51-54): whole seconds to the boundary, floored at 60. -/
def ttl_to_next_boundary (next_b now : ℕ) : ℕ :=
  max (next_b - now) 60

/-- Embedding of `slot_key` (src/universal_cache.py, lines 56-62) with the
default empty cache prefix and version "v1"; the date is rendered as the
day number. -/
def slot_key (ns league suffix : String) (t : ℕ) : String :=
  "v1:" ++ ns ++ ":" ++ league ++ ":" ++ toString (t / 86400) ++ ":"
    ++ slot_name t ++ (if suffix = "" then "" else ":" ++ suffix)

/-- The in-process store `_mem`: key, expiry instant, stored value. -/
abbrev Store := List (String × ℕ × JVal)

def cache_lookup (st : Store) (k : String) : Option (ℕ × JVal) :=
  (st.find? (fun e => e.1 = k)).map (·.2)

/-- Python dict assignment: replace the first entry with this key, else
append. -/
def cache_assign : Store → String → ℕ × JVal → Store
  | [], k, v => [(k, v)]
  | e :: rest, k, v => if e.1 = k then (k, v) :: rest else e :: cache_assign rest k v

/-- Embedding of `get_json` on the in-process backend
(src/universal_cache.py, lines 64-71): a present, unexpired entry is
loaded; a loaded `null` is indistinguishable from a miss for the caller
of `get_or_set_slot`. -/
def cache_get_json (st : Store) (t : ℕ) (k : String) : Option JVal :=
  match cache_lookup st k with
  | some (exp, v) => if t < exp then (if v = .null then none else some v) else none
  | none => none

/-- Embedding of `set_json` with no explicit TTL (src/universal_cache.py,
lines 73-80): the TTL is the floored time to the next boundary, computed
at store time. -/
def cache_set_json (st : Store) (t : ℕ) (k : String) (v : JVal) : Store :=
  let ttl := ttl_to_next_boundary (next_boundary t) t
  cache_assign st k (t + ttl, v)

/-- Embedding of `get_or_set_slot` (src/universal_cache.py, lines 82-89).
`fetchVal` is what `fetcher()` would return; the Bool records whether the
fetcher was invoked. -/
def get_or_set_slot (st : Store) (t : ℕ) (ns league suffix : String)
    (fetchVal : JVal) : JVal × Store × Bool :=
  let k := slot_key ns league suffix t
  match cache_get_json st t k with
  | some v => (v, st, false)
  | none => (fetchVal, cache_set_json st t k fetchVal, true)

theorem cache_lookup_assign_same (st : Store) (k : String) (x : ℕ × JVal) :
    cache_lookup (cache_assign st k x) k = some x := by
  induction st with
  | nil => simp [cache_assign, cache_lookup, List.find?]
  | cons e rest ih =>
    by_cases h : e.1 = k
    · simp [cache_assign, h, cache_lookup, List.find?]
    · simp only [cache_assign, if_neg h]
      simpa [cache_lookup, List.find?, h] using ih

/-- C3 counterexample: at local time 07:59:30 (t = 28770) only 30 seconds
remain to the 08:00 boundary, but the stored TTL is the 60-second floor,
which exceeds the remaining time — so the TTL is not at most the seconds
remaining. -/
theorem slot_cache_ttl_exceeds_remaining :
    ttl_to_next_boundary (next_boundary 28770) 28770 = 60
  ∧ next_boundary 28770 - 28770 = 30
  ∧ ¬ (ttl_to_next_boundary (next_boundary 28770) 28770 ≤ next_boundary 28770 - 28770) := by
  refine ⟨by decide, by decide, by decide⟩

/-- C3 (amended): for two `get_or_set_slot` calls with the same namespace,
league and suffix, at two instants of the same calendar date lying in the
same day-part interval, where the first call misses (cold key) and the
fetched value is not JSON null: the first call invokes the fetcher and the
second is served from the cache, so the fetcher runs exactly once; the
stored TTL is the seconds remaining to the next day-part boundary when at
least 60 remain, and the 60-second floor otherwise (so it can exceed the
remaining time). -/
theorem slot_cache_single_fetch :
    ∀ (st : Store) (ns lg suf : String) (t1 t2 : ℕ) (v v2 : JVal),
    cache_lookup st (slot_key ns lg suf t1) = none →
    v ≠ JVal.null →
    t1 ≤ t2 →
    t1 / 86400 = t2 / 86400 →
    next_boundary t1 = next_boundary t2 →
    (get_or_set_slot st t1 ns lg suf v).2.2 = true
    ∧ (get_or_set_slot st t1 ns lg suf v).1 = v
    ∧ (get_or_set_slot (get_or_set_slot st t1 ns lg suf v).2.1 t2 ns lg suf v2).2.2 = false
    ∧ (get_or_set_slot (get_or_set_slot st t1 ns lg suf v).2.1 t2 ns lg suf v2).1 = v
    ∧ 60 ≤ ttl_to_next_boundary (next_boundary t1) t1
    ∧ (60 ≤ next_boundary t1 - t1 →
        ttl_to_next_boundary (next_boundary t1) t1 = next_boundary t1 - t1) := by
  intro st ns lg suf t1 t2 v v2 hcold hv h12 hdate hbound
  have hname : slot_name t1 = slot_name t2 := by
    unfold slot_name
    unfold next_boundary at hbound
    split_ifs at hbound ⊢ <;> first | rfl | omega
  have hkey : slot_key ns lg suf t1 = slot_key ns lg suf t2 := by
    unfold slot_key
    rw [hdate, hname]
  have hlt2 : t2 < next_boundary t2 := by
    unfold next_boundary
    split_ifs <;> omega
  have hge : t1 ≤ next_boundary t1 := by
    unfold next_boundary
    split_ifs <;> omega
  have hrem : next_boundary t1 - t1 ≤ ttl_to_next_boundary (next_boundary t1) t1 :=
    le_max_left _ _
  have hfloor : 60 ≤ ttl_to_next_boundary (next_boundary t1) t1 := le_max_right _ _
  have hmiss : cache_get_json st t1 (slot_key ns lg suf t1) = none := by
    unfold cache_get_json
    rw [hcold]
  have hfirst : get_or_set_slot st t1 ns lg suf v
      = (v, cache_set_json st t1 (slot_key ns lg suf t1) v, true) := by
    unfold get_or_set_slot
    dsimp only
    rw [hmiss]
  have hexp : t2 < t1 + ttl_to_next_boundary (next_boundary t1) t1 := by omega
  have hhit : cache_get_json (cache_set_json st t1 (slot_key ns lg suf t1) v) t2
      (slot_key ns lg suf t2) = some v := by
    unfold cache_get_json cache_set_json
    dsimp only
    rw [← hkey, cache_lookup_assign_same]
    dsimp only
    rw [if_pos hexp, if_neg hv]
  have hsecond : get_or_set_slot (cache_set_json st t1 (slot_key ns lg suf t1) v) t2
      ns lg suf v2
      = (v, cache_set_json st t1 (slot_key ns lg suf t1) v, false) := by
    unfold get_or_set_slot
    dsimp only
    rw [hhit]
  rw [hfirst, hsecond]
  refine ⟨rfl, rfl, rfl, rfl, hfloor, ?_⟩
  intro h60
  unfold ttl_to_next_boundary
  omega

/-- Witness for C3 (amended): a cold cache at 10:00 and a second call at
11:00 of the same morning day-part fetch exactly once, and the stored TTL
is the 3 hours remaining to 13:00. -/
theorem slot_cache_single_fetch_witness :
    (get_or_set_slot [] 36000 "props" "mlb" "" (JVal.str "x")).2.2 = true
    ∧ (get_or_set_slot [] 36000 "props" "mlb" "" (JVal.str "x")).1 = JVal.str "x"
    ∧ (get_or_set_slot (get_or_set_slot [] 36000 "props" "mlb" "" (JVal.str "x")).2.1
        39600 "props" "mlb" "" (JVal.str "y")).2.2 = false
    ∧ (get_or_set_slot (get_or_set_slot [] 36000 "props" "mlb" "" (JVal.str "x")).2.1
        39600 "props" "mlb" "" (JVal.str "y")).1 = JVal.str "x"
    ∧ 60 ≤ ttl_to_next_boundary (next_boundary 36000) 36000
    ∧ (60 ≤ next_boundary 36000 - 36000 →
        ttl_to_next_boundary (next_boundary 36000) 36000 = next_boundary 36000 - 36000) :=
  slot_cache_single_fetch [] "props" "mlb" "" 36000 39600 (JVal.str "x") (JVal.str "y")
    (by decide) (by decide) (by decide) (by decide) (by decide)

/-! ## Prop pairing, from src/props_ncaaf.py

Bookmaker payloads carry outcomes with a `name` (the side label), a
`description` (usually the player), a price and a line `point`.  The
pairing dictionary of `_pair_outcomes` is modelled as an
insertion-ordered association list from pairing keys to an optional tick
per side. -/

structure Outcome where
  name : String := ""
  description : String := ""
  price : Option ℤ := none
  point : Option ℚ := none
deriving DecidableEq

structure Market where
  key : String
  outcomes : List Outcome
deriving DecidableEq

structure Bookmaker where
  key : String
  markets : List Market
deriving DecidableEq

/-- The per-side record `{"book": ..., "price": ..., "point": ...}` built
at src/props_ncaaf.py line 44. -/
structure Tick where
  book : String
  price : ℤ
  point : Option ℚ
deriving DecidableEq

/-- A pairing key `(player-or-fighter name, stat key, line point)`. -/
abbrev PairKey := String × String × Option ℚ

/-- Optional over and under ticks for one pairing. -/
abbrev Sides := Option Tick × Option Tick

/-- `out.get("description") or out.get("name") or ""`. -/
def out_name (o : Outcome) : String :=
  if o.description ≠ "" then o.description else o.name

/-- Python `str.lower` on ASCII labels, written over the character list
so that concrete instances reduce. -/
def lower_str (s : String) : String :=
  String.mk (s.data.map Char.toLower)

/-- The side label after synonym mapping (src/props_ncaaf.py, lines
37-42): the lower-cased `name`, with yes/anytime_td mapped to over and no
mapped to under when the label is not literally over/under. -/
def side_of (o : Outcome) : String :=
  let s := lower_str o.name
  if s = "over" ∨ s = "under" then s
  else if s = "yes" ∨ s = "anytime_td" then "over"
  else if s = "no" then "under"
  else s

/-- Set one side of a pairing if it is not already set (the
`not pairs[k]["over"]` guard: an existing tick is truthy and kept). -/
def apply_side (s : Sides) (isOver : Bool) (t : Tick) : Sides :=
  if isOver then
    match s.1 with
    | none => (some t, s.2)
    | some _ => s
  else
    match s.2 with
    | none => (s.1, some t)
    | some _ => s

/-- Update the pairing dictionary at key `k`: update the existing entry in
place, or append a fresh entry (Python dict insertion order). -/
def update_pairs : List (PairKey × Sides) → PairKey → Bool → Tick → List (PairKey × Sides)
  | [], k, isOver, t =>
    [(k, apply_side (none, none) isOver t)]
  | e :: rest, k, isOver, t =>
    if e.1 = k then (e.1, apply_side e.2 isOver t) :: rest
    else e :: update_pairs rest k isOver t

/-- Processing of one outcome of one bookmaker inside the nested loops of
`_pair_outcomes` (src/props_ncaaf.py, lines 35-46): skip when the name is
empty or the price missing; set the over or under side first-seen; ignore
other side labels. -/
def pair_step (statKey : String) (pairs : List (PairKey × Sides))
    (bo : String × Outcome) : List (PairKey × Sides) :=
  let o := bo.2
  match o.price with
  | none => pairs
  | some pr =>
    if out_name o = "" then pairs
    else
      let k : PairKey := (out_name o, statKey, o.point)
      let t : Tick := ⟨bo.1, pr, o.point⟩
      if side_of o = "over" then update_pairs pairs k true t
      else if side_of o = "under" then update_pairs pairs k false t
      else pairs

/-- The traversal order of `_pair_outcomes`: all outcomes of the markets
whose key is the stat key, bookmaker by bookmaker, each tagged with its
bookmaker key. -/
def outcome_seq (bookmakers : List Bookmaker) (statKey : String) :
    List (String × Outcome) :=
  bookmakers.flatMap (fun b =>
    (b.markets.filter (fun m => m.key = statKey)).flatMap (fun m =>
      m.outcomes.map (fun o => (b.key, o))))

/-- Embedding of `_pair_outcomes` (src/props_ncaaf.py, lines 29-47). -/
def pair_outcomes (bookmakers : List Bookmaker) (statKey : String) :
    List (PairKey × Sides) :=
  (outcome_seq bookmakers statKey).foldl (pair_step statKey) []

/-- First-match lookup in the pairing dictionary. -/
def lookup_pairs (pairs : List (PairKey × Sides)) (k : PairKey) : Option Sides :=
  (pairs.find? (fun e => e.1 = k)).map (·.2)

/-- The over tick recorded for key `k`. -/
def over_at (pairs : List (PairKey × Sides)) (k : PairKey) : Option Tick :=
  (lookup_pairs pairs k).bind (·.1)

/-- The under tick recorded for key `k`. -/
def under_at (pairs : List (PairKey × Sides)) (k : PairKey) : Option Tick :=
  (lookup_pairs pairs k).bind (·.2)

/-- Written from the spec sentence for comparison: a valid outcome of the
requested side for key `k` (non-empty name, priced, matching side label
and pairing key). -/
def is_side_for (statKey : String) (k : PairKey) (side : String)
    (bo : String × Outcome) : Bool :=
  out_name bo.2 ≠ "" && bo.2.price.isSome && side_of bo.2 = side
    && decide ((out_name bo.2, statKey, bo.2.point) = k)

/-- The tick built from a bookmaker-tagged outcome. -/
def tick_of (bo : String × Outcome) : Tick :=
  ⟨bo.1, bo.2.price.getD 0, bo.2.point⟩

/-- Left-biased choice on options: keep the first value if present. -/
def opt_or (a b : Option α) : Option α :=
  match a with
  | some x => some x
  | none => b

theorem opt_or_none (a : Option α) : opt_or a none = a := by
  cases a <;> rfl

theorem opt_or_absorb (a : Option α) (t : α) (r : Option α) :
    opt_or (opt_or a (some t)) r = opt_or a (some t) := by
  cases a <;> rfl

theorem lookup_update_same (L : List (PairKey × Sides)) (k : PairKey) (io : Bool) (t : Tick) :
    lookup_pairs (update_pairs L k io t) k
      = some (apply_side ((lookup_pairs L k).getD (none, none)) io t) := by
  induction L with
  | nil => simp [update_pairs, lookup_pairs, List.find?]
  | cons e rest ih =>
    by_cases h : e.1 = k
    · simp [update_pairs, h, lookup_pairs, List.find?]
    · simp only [update_pairs, if_neg h]
      simpa [lookup_pairs, List.find?, h] using ih

theorem lookup_update_ne (L : List (PairKey × Sides)) (k k' : PairKey) (io : Bool)
    (t : Tick) (h : k' ≠ k) :
    lookup_pairs (update_pairs L k io t) k' = lookup_pairs L k' := by
  induction L with
  | nil => simp [update_pairs, lookup_pairs, List.find?, Ne.symm h]
  | cons e rest ih =>
    by_cases he : e.1 = k
    · subst he
      simp [update_pairs, lookup_pairs, List.find?, Ne.symm h]
    · simp only [update_pairs, if_neg he]
      by_cases he' : e.1 = k'
      · simp [lookup_pairs, List.find?, he']
      · simpa [lookup_pairs, List.find?, he'] using ih

theorem over_at_update_true (L : List (PairKey × Sides)) (k : PairKey) (t : Tick) :
    over_at (update_pairs L k true t) k = opt_or (over_at L k) (some t) := by
  unfold over_at
  rw [lookup_update_same]
  cases hs : lookup_pairs L k with
  | none => rfl
  | some s =>
    cases ho : s.1 with
    | none => simp [apply_side, ho, opt_or]
    | some t0 => simp [apply_side, ho, opt_or]

theorem under_at_update_false (L : List (PairKey × Sides)) (k : PairKey) (t : Tick) :
    under_at (update_pairs L k false t) k = opt_or (under_at L k) (some t) := by
  unfold under_at
  rw [lookup_update_same]
  cases hs : lookup_pairs L k with
  | none => rfl
  | some s =>
    cases ho : s.2 with
    | none => simp [apply_side, ho, opt_or]
    | some t0 => simp [apply_side, ho, opt_or]

theorem over_at_update_false (L : List (PairKey × Sides)) (k k' : PairKey) (t : Tick) :
    over_at (update_pairs L k false t) k' = over_at L k' := by
  by_cases h : k' = k
  · subst h
    unfold over_at
    rw [lookup_update_same]
    cases hs : lookup_pairs L k' with
    | none => rfl
    | some s =>
      cases hu : s.2 with
      | none => simp [apply_side, hu]
      | some t0 => simp [apply_side, hu]
  · unfold over_at
    rw [lookup_update_ne L k k' false t h]

theorem under_at_update_true (L : List (PairKey × Sides)) (k k' : PairKey) (t : Tick) :
    under_at (update_pairs L k true t) k' = under_at L k' := by
  by_cases h : k' = k
  · subst h
    unfold under_at
    rw [lookup_update_same]
    cases hs : lookup_pairs L k' with
    | none => rfl
    | some s =>
      cases ho : s.1 with
      | none => simp [apply_side, ho]
      | some t0 => simp [apply_side, ho]
  · unfold under_at
    rw [lookup_update_ne L k k' true t h]

theorem over_at_update_true_ne (L : List (PairKey × Sides)) (k k' : PairKey) (t : Tick)
    (h : k' ≠ k) :
    over_at (update_pairs L k true t) k' = over_at L k' := by
  unfold over_at
  rw [lookup_update_ne L k k' true t h]

theorem under_at_update_false_ne (L : List (PairKey × Sides)) (k k' : PairKey) (t : Tick)
    (h : k' ≠ k) :
    under_at (update_pairs L k false t) k' = under_at L k' := by
  unfold under_at
  rw [lookup_update_ne L k k' false t h]

theorem over_step_pos (sk : String) (L : List (PairKey × Sides)) (x : String × Outcome)
    (k : PairKey) (h : is_side_for sk k "over" x = true) :
    over_at (pair_step sk L x) k = opt_or (over_at L k) (some (tick_of x)) := by
  simp only [is_side_for, Bool.and_eq_true, decide_eq_true_eq] at h
  obtain ⟨⟨⟨hname, hprice⟩, hside⟩, hkey⟩ := h
  obtain ⟨pr, hp⟩ := Option.isSome_iff_exists.mp hprice
  unfold pair_step
  dsimp only
  rw [hp]
  dsimp only
  rw [if_neg hname, if_pos hside, hkey, over_at_update_true]
  simp [tick_of, hp]

theorem over_step_neg (sk : String) (L : List (PairKey × Sides)) (x : String × Outcome)
    (k : PairKey) (h : is_side_for sk k "over" x = false) :
    over_at (pair_step sk L x) k = over_at L k := by
  have h' : ¬ (is_side_for sk k "over" x = true) := by simp [h]
  unfold pair_step
  dsimp only
  rcases hp : x.2.price with _ | pr
  · rfl
  · dsimp only
    by_cases hname : out_name x.2 = ""
    · rw [if_pos hname]
    · rw [if_neg hname]
      by_cases hside : side_of x.2 = "over"
      · rw [if_pos hside]
        have hkey : (out_name x.2, sk, x.2.point) ≠ k := by
          intro hk
          exact h' (by simp [is_side_for, hp, hname, hside, hk])
        rw [over_at_update_true_ne L _ k _ (Ne.symm hkey)]
      · rw [if_neg hside]
        by_cases hunder : side_of x.2 = "under"
        · rw [if_pos hunder, over_at_update_false]
        · rw [if_neg hunder]

theorem under_step_pos (sk : String) (L : List (PairKey × Sides)) (x : String × Outcome)
    (k : PairKey) (h : is_side_for sk k "under" x = true) :
    under_at (pair_step sk L x) k = opt_or (under_at L k) (some (tick_of x)) := by
  simp only [is_side_for, Bool.and_eq_true, decide_eq_true_eq] at h
  obtain ⟨⟨⟨hname, hprice⟩, hside⟩, hkey⟩ := h
  obtain ⟨pr, hp⟩ := Option.isSome_iff_exists.mp hprice
  have hnotover : ¬ side_of x.2 = "over" := by
    rw [hside]
    intro hc
    exact absurd hc (by decide)
  unfold pair_step
  dsimp only
  rw [hp]
  dsimp only
  rw [if_neg hname, if_neg hnotover, if_pos hside, hkey, under_at_update_false]
  simp [tick_of, hp]

theorem under_step_neg (sk : String) (L : List (PairKey × Sides)) (x : String × Outcome)
    (k : PairKey) (h : is_side_for sk k "under" x = false) :
    under_at (pair_step sk L x) k = under_at L k := by
  have h' : ¬ (is_side_for sk k "under" x = true) := by simp [h]
  unfold pair_step
  dsimp only
  rcases hp : x.2.price with _ | pr
  · rfl
  · dsimp only
    by_cases hname : out_name x.2 = ""
    · rw [if_pos hname]
    · rw [if_neg hname]
      by_cases hside : side_of x.2 = "over"
      · rw [if_pos hside, under_at_update_true]
      · rw [if_neg hside]
        by_cases hunder : side_of x.2 = "under"
        · rw [if_pos hunder]
          have hkey : (out_name x.2, sk, x.2.point) ≠ k := by
            intro hk
            exact h' (by simp [is_side_for, hp, hname, hunder, hk])
          rw [under_at_update_false_ne L _ k _ (Ne.symm hkey)]
        · rw [if_neg hunder]

theorem over_at_foldl (sk : String) :
    ∀ (xs : List (String × Outcome)) (L : List (PairKey × Sides)) (k : PairKey),
    over_at (xs.foldl (pair_step sk) L) k
      = opt_or (over_at L k) ((xs.find? (is_side_for sk k "over")).map tick_of) := by
  intro xs
  induction xs with
  | nil =>
    intro L k
    simp [opt_or_none]
  | cons x xs ih =>
    intro L k
    rw [List.foldl_cons, ih]
    by_cases h : is_side_for sk k "over" x = true
    · rw [List.find?_cons_of_pos _ h, over_step_pos sk L x k h]
      simp only [Option.map_some']
      exact opt_or_absorb _ _ _
    · have hf : is_side_for sk k "over" x = false := by simpa using h
      rw [List.find?_cons_of_neg _ (by simp [hf]), over_step_neg sk L x k hf]

theorem under_at_foldl (sk : String) :
    ∀ (xs : List (String × Outcome)) (L : List (PairKey × Sides)) (k : PairKey),
    under_at (xs.foldl (pair_step sk) L) k
      = opt_or (under_at L k) ((xs.find? (is_side_for sk k "under")).map tick_of) := by
  intro xs
  induction xs with
  | nil =>
    intro L k
    simp [opt_or_none]
  | cons x xs ih =>
    intro L k
    rw [List.foldl_cons, ih]
    by_cases h : is_side_for sk k "under" x = true
    · rw [List.find?_cons_of_pos _ h, under_step_pos sk L x k h]
      simp only [Option.map_some']
      exact opt_or_absorb _ _ _
    · have hf : is_side_for sk k "under" x = false := by simpa using h
      rw [List.find?_cons_of_neg _ (by simp [hf]), under_step_neg sk L x k hf]

def pair_keys (L : List (PairKey × Sides)) : List PairKey := L.map (·.1)

theorem mem_keys_update (L : List (PairKey × Sides)) (k k' : PairKey) (io : Bool) (t : Tick) :
    k' ∈ pair_keys (update_pairs L k io t) ↔ k' ∈ pair_keys L ∨ k' = k := by
  induction L with
  | nil => simp [update_pairs, pair_keys]
  | cons e rest ih =>
    by_cases h : e.1 = k
    · subst h
      have hu : update_pairs (e :: rest) e.1 io t = (e.1, apply_side e.2 io t) :: rest := by
        unfold update_pairs
        rw [if_pos rfl]
      rw [hu]
      simp only [pair_keys, List.map_cons, List.mem_cons]
      tauto
    · simp only [update_pairs, if_neg h, pair_keys, List.map_cons, List.mem_cons] at ih ⊢
      rw [ih]
      tauto

theorem nodup_keys_update (L : List (PairKey × Sides)) (k : PairKey) (io : Bool) (t : Tick)
    (h : (pair_keys L).Nodup) : (pair_keys (update_pairs L k io t)).Nodup := by
  induction L with
  | nil => simp [update_pairs, pair_keys]
  | cons e rest ih =>
    by_cases he : e.1 = k
    · subst he
      simpa [update_pairs, pair_keys] using h
    · simp only [update_pairs, if_neg he, pair_keys, List.map_cons, List.nodup_cons] at h ⊢
      refine ⟨?_, ih h.2⟩
      intro hmem
      rw [show (List.map (fun e => e.1) (update_pairs rest k io t)) = pair_keys (update_pairs rest k io t) from rfl, mem_keys_update] at hmem
      rcases hmem with hm | hm
      · exact h.1 (by simpa [pair_keys] using hm)
      · exact he hm

theorem nodup_keys_pair_step (sk : String) (L : List (PairKey × Sides))
    (bo : String × Outcome) (h : (pair_keys L).Nodup) :
    (pair_keys (pair_step sk L bo)).Nodup := by
  unfold pair_step
  dsimp only
  rcases hp : bo.2.price with _ | pr
  · exact h
  · dsimp only
    split_ifs <;> first | exact h | exact nodup_keys_update _ _ _ _ h

theorem nodup_keys_foldl (sk : String) :
    ∀ (xs : List (String × Outcome)) (L : List (PairKey × Sides)),
    (pair_keys L).Nodup → (pair_keys (xs.foldl (pair_step sk) L)).Nodup := by
  intro xs
  induction xs with
  | nil => intro L h; exact h
  | cons x xs ih =>
    intro L h
    rw [List.foldl_cons]
    exact ih _ (nodup_keys_pair_step sk L x h)

/-- A bookmaker quoting only the over side of PlayerX 2.0. -/
def c1_book1 : Bookmaker :=
  ⟨"b1", [⟨"player_pass_yds", [⟨"Over", "PlayerX", some (-110), some 2⟩]⟩]⟩

/-- A later bookmaker quoting both sides of the same pairing. -/
def c1_book2 : Bookmaker :=
  ⟨"b2", [⟨"player_pass_yds",
    [⟨"Over", "PlayerX", some (-115), some 2⟩,
     ⟨"Under", "PlayerX", some (-105), some 2⟩]⟩]⟩

/-- C1 counterexample: with bookmaker b1 quoting only the over and b2
quoting both sides, the pairing keeps the over tick from b1 and the under
tick from b2 — the two retained sides come from different bookmakers. -/
theorem pair_outcomes_mixes_bookmakers :
    over_at (pair_outcomes [c1_book1, c1_book2] "player_pass_yds")
        ("PlayerX", "player_pass_yds", some 2)
      = some ⟨"b1", -110, some 2⟩
  ∧ under_at (pair_outcomes [c1_book1, c1_book2] "player_pass_yds")
        ("PlayerX", "player_pass_yds", some 2)
      = some ⟨"b2", -105, some 2⟩
  ∧ ("b1" : String) ≠ "b2" := by
  refine ⟨by decide, by decide, by decide⟩

/-- C1 (amended): for every bookmaker list, each (player, stat key, line)
pairing keeps the first-seen price per side across the entire bookmaker
list — the over tick is exactly the first valid over outcome for the key
in traversal order, and likewise for under, so the two sides of one
pairing can come from different bookmakers — and the pairing dictionary
holds exactly one entry per key. -/
theorem pair_outcomes_first_seen :
    (∀ (bs : List Bookmaker) (sk : String) (k : PairKey),
      over_at (pair_outcomes bs sk) k
        = ((outcome_seq bs sk).find? (is_side_for sk k "over")).map tick_of)
  ∧ (∀ (bs : List Bookmaker) (sk : String) (k : PairKey),
      under_at (pair_outcomes bs sk) k
        = ((outcome_seq bs sk).find? (is_side_for sk k "under")).map tick_of)
  ∧ (∀ (bs : List Bookmaker) (sk : String), (pair_keys (pair_outcomes bs sk)).Nodup) := by
  refine ⟨?_, ?_, ?_⟩
  · intro bs sk k
    unfold pair_outcomes
    rw [over_at_foldl]
    rfl
  · intro bs sk k
    unfold pair_outcomes
    rw [under_at_foldl]
    rfl
  · intro bs sk
    exact nodup_keys_foldl sk _ [] (by simp [pair_keys])

/-! ## Matchup grouping, from src/matchups.py

Props and cached games are dictionaries of optional string fields; a
missing field and an empty string are both falsy in the source, so fields
are modelled as strings with "" for missing.  The games list read from the
odds cache by `load_games_for_league` is passed as a parameter. -/

structure MProp where
  event_id : String := ""
  game_id : String := ""
  eventId : String := ""
  away_team : String := ""
  away : String := ""
  team_away : String := ""
  teamAway : String := ""
  home_team : String := ""
  home : String := ""
  team_home : String := ""
  teamHome : String := ""
  matchup : String := ""
  fighter : String := ""
  fighter_a : String := ""
  player : String := ""
  opponent : String := ""
  fighter_b : String := ""
deriving DecidableEq

structure Game where
  event_id : String := ""
  game_id : String := ""
  eventId : String := ""
  away_team : String := ""
  away : String := ""
  home_team : String := ""
  home : String := ""
deriving DecidableEq

/-- Python `a or b` on strings: the first truthy (non-empty) value. -/
def or_str (a b : String) : String := if a = "" then b else a

/-- Python `str.strip` over the character list, so that concrete instances
reduce. -/
def strip_str (s : String) : String :=
  String.mk (((s.data.dropWhile (fun c => c.isWhitespace)).reverse.dropWhile
    (fun c => c.isWhitespace)).reverse)

/-- Embedding of `_norm_team` (src/matchups.py, lines 17-18). -/
def norm_team (x : String) : String := strip_str x

/-- Embedding of `_fmt` (src/matchups.py, lines 12-15). -/
def fmt (away home : String) : String :=
  or_str (strip_str away) "Away" ++ " @ " ++ or_str (strip_str home) "Home"

/-- Embedding of `_ufc_matchup` (src/matchups.py, lines 20-25). -/
def ufc_matchup (p : MProp) : String :=
  or_str (strip_str (or_str p.fighter (or_str p.fighter_a p.player))) "Fighter A"
    ++ " vs "
    ++ or_str (strip_str (or_str p.opponent p.fighter_b)) "Fighter B"

/-- Embedding of `_teams_from_prop` (src/matchups.py, lines 27-31). -/
def teams_from_prop (p : MProp) : String × String :=
  (norm_team (or_str p.away_team (or_str p.away (or_str p.team_away p.teamAway))),
   norm_team (or_str p.home_team (or_str p.home (or_str p.team_home p.teamHome))))

/-- The event id of a prop (src/matchups.py, line 35). -/
def pid_of (p : MProp) : String := or_str p.event_id (or_str p.game_id p.eventId)

/-- The event id of a cached game (src/matchups.py, line 39). -/
def gid_of (g : Game) : String := or_str g.event_id (or_str g.game_id g.eventId)

/-- Embedding of `_teams_from_games_index` (src/matchups.py, lines 33-42). -/
def teams_from_games_index (p : MProp) (games : List Game) : String × String :=
  if pid_of p = "" then ("", "")
  else
    match games.find? (fun g => gid_of g ≠ "" && gid_of g = pid_of p) with
    | some g => (norm_team (or_str g.away_team g.away), norm_team (or_str g.home_team g.home))
    | none => ("", "")

/-- The bucket key assigned to one prop by the team-sport branch of
`group_props_by_matchup` (src/matchups.py, lines 81-96). -/
def prop_key (games : List Game) (p : MProp) : String :=
  let ti := teams_from_games_index p games
  let tp := if ti.1 = "" ∧ ti.2 = "" then teams_from_prop p else ti
  if tp.1 = "" ∧ tp.2 = "" then
    (if p.matchup ≠ "" then p.matchup else fmt tp.1 tp.2)
  else fmt tp.1 tp.2

/-- Python `out.setdefault(key, []).append(p)`: append to the existing
bucket, else append a fresh bucket at the end (dict insertion order). -/
def bucket_push {α : Type} : List (String × List α) → String → α → List (String × List α)
  | [], k, p => [(k, [p])]
  | e :: rest, k, p =>
    if e.1 = k then (e.1, e.2 ++ [p]) :: rest else e :: bucket_push rest k p

/-- Embedding of `group_props_by_matchup` (src/matchups.py, lines 68-98);
`games` is the list `load_games_for_league` would return from the odds
cache. -/
def group_props_by_matchup (props : List MProp) (league : String) (games : List Game) :
    List (String × List MProp) :=
  if lower_str league = "ufc" then
    props.foldl (fun out p => bucket_push out (ufc_matchup p) p) []
  else
    props.foldl (fun out p => bucket_push out (prop_key games p) p) []

/-- The concatenation of all buckets in bucket order. -/
def buckets_join {α : Type} (out : List (String × List α)) : List α :=
  (out.map (·.2)).flatten

theorem buckets_join_push {α : Type} (out : List (String × List α)) (k : String) (p : α) :
    List.Perm (buckets_join (bucket_push out k p)) (buckets_join out ++ [p]) := by
  induction out with
  | nil => simp [bucket_push, buckets_join]
  | cons e rest ih =>
    by_cases h : e.1 = k
    · simp only [bucket_push, if_pos h, buckets_join, List.map_cons, List.flatten_cons]
      have h1 : e.2 ++ [p] ++ (rest.map (·.2)).flatten
          = e.2 ++ ([p] ++ (rest.map (·.2)).flatten) := by rw [List.append_assoc]
      have h2 : List.Perm (e.2 ++ ([p] ++ (rest.map (·.2)).flatten))
          (e.2 ++ ((rest.map (·.2)).flatten ++ [p])) :=
        List.Perm.append_left e.2 List.perm_append_comm
      rw [h1]
      refine h2.trans ?_
      rw [List.append_assoc]
    · simp only [bucket_push, if_neg h, buckets_join, List.map_cons, List.flatten_cons]
      have h2 : List.Perm (e.2 ++ (List.map (·.2) (bucket_push rest k p)).flatten)
          (e.2 ++ ((rest.map (·.2)).flatten ++ [p])) :=
        List.Perm.append_left e.2 ih
      refine h2.trans ?_
      rw [List.append_assoc]

theorem buckets_join_foldl {α : Type} (f : α → String) :
    ∀ (props : List α) (out : List (String × List α)),
    List.Perm (buckets_join (props.foldl (fun o p => bucket_push o (f p) p) out))
      (buckets_join out ++ props) := by
  intro props
  induction props with
  | nil => intro out; simp
  | cons p ps ih =>
    intro out
    rw [List.foldl_cons]
    refine (ih (bucket_push out (f p) p)).trans ?_
    have h1 : List.Perm (buckets_join (bucket_push out (f p) p) ++ ps)
        ((buckets_join out ++ [p]) ++ ps) :=
      (buckets_join_push out (f p) p).append_right ps
    refine h1.trans ?_
    simp

theorem sublist_push {α : Type} (out : List (String × List α)) (k : String) (p : α)
    (pre : List α) (h : List.Forall (fun kv => kv.2.Sublist pre) out) :
    List.Forall (fun kv => kv.2.Sublist (pre ++ [p])) (bucket_push out k p) := by
  induction out with
  | nil =>
    simp only [bucket_push, List.Forall]
    exact List.sublist_append_right pre [p]
  | cons e rest ih =>
    rw [List.forall_cons] at h
    by_cases he : e.1 = k
    · simp only [bucket_push, if_pos he, List.forall_cons]
      refine ⟨List.Sublist.append h.1 (List.Sublist.refl [p]), ?_⟩
      exact List.Forall.imp (fun kv hkv => hkv.trans (List.sublist_append_left pre [p])) h.2
    · simp only [bucket_push, if_neg he, List.forall_cons]
      exact ⟨h.1.trans (List.sublist_append_left pre [p]), ih h.2⟩

theorem sublist_foldl {α : Type} (f : α → String) :
    ∀ (props : List α) (out : List (String × List α)) (pre : List α),
    List.Forall (fun kv => kv.2.Sublist pre) out →
    List.Forall (fun kv => kv.2.Sublist (pre ++ props))
      (props.foldl (fun o p => bucket_push o (f p) p) out) := by
  intro props
  induction props with
  | nil =>
    intro out pre h
    simpa using h
  | cons p ps ih =>
    intro out pre h
    rw [List.foldl_cons]
    have h2 := sublist_push out (f p) p pre h
    have h3 := ih (bucket_push out (f p) p) (pre ++ [p]) h2
    simpa using h3

/-- C10: matchup grouping partitions its input: the concatenation of all
buckets is a permutation of the input prop list (no prop dropped or
duplicated), and every bucket is a sublist of the input, so props keep
their input order inside each bucket.  Holds for the UFC branch and the
team-sport branch alike. -/
theorem group_props_partition :
    ∀ (props : List MProp) (league : String) (games : List Game),
    List.Perm (buckets_join (group_props_by_matchup props league games)) props
    ∧ List.Forall (fun kv => kv.2.Sublist props)
        (group_props_by_matchup props league games) := by
  intro props league games
  unfold group_props_by_matchup
  by_cases h : lower_str league = "ufc"
  · rw [if_pos h]
    constructor
    · simpa using buckets_join_foldl ufc_matchup props []
    · simpa using sublist_foldl ufc_matchup props [] [] (by simp [List.Forall])
  · rw [if_neg h]
    constructor
    · simpa using buckets_join_foldl (prop_key games) props []
    · simpa using sublist_foldl (prop_key games) props [] [] (by simp [List.Forall])

theorem teams_index_no_pid (p : MProp) (games : List Game) (h : pid_of p = "") :
    teams_from_games_index p games = ("", "") := by
  unfold teams_from_games_index
  rw [if_pos h]

/-- C6 counterexample: two props with no identity fields at all (league
with empty games cache) land in the same generic "Away @ Home" bucket —
the grouping code has no placeholder disambiguation, so unrelated
unresolved events collapse together. -/
theorem group_props_no_placeholder_disambiguation :
    group_props_by_matchup [{}, {}] "nfl" []
      = [("Away @ Home", [{}, {}])] := by
  decide

/-- C6 (amended): two props with no explicit event id and identical
team/opponent identity fields (and identical precomputed matchup field)
are placed in the same bucket; but two props sharing no identity fields at
all are also placed in one shared bucket, under the generic placeholder
label "Away @ Home" — the label is not disambiguated per event. -/
theorem group_props_identity_fallback :
    (∀ (p q : MProp) (games : List Game),
      pid_of p = "" → pid_of q = "" →
      teams_from_prop p = teams_from_prop q → p.matchup = q.matchup →
      prop_key games p = prop_key games q)
  ∧ (∀ (p : MProp) (games : List Game),
      pid_of p = "" → teams_from_prop p = ("", "") → p.matchup = "" →
      prop_key games p = "Away @ Home") := by
  constructor
  · intro p q games hp hq hteams hmatch
    unfold prop_key
    rw [teams_index_no_pid p games hp, teams_index_no_pid q games hq]
    dsimp only
    rw [hteams, hmatch]
  · intro p games hp hteams hmatch
    unfold prop_key
    rw [teams_index_no_pid p games hp]
    dsimp only
    rw [hteams, hmatch]
    simp [fmt, strip_str, or_str]

/-- Witness for C6 (amended): two different props with the same away team
and no event id share a bucket key, and a fully field-free prop keys to
"Away @ Home". -/
theorem group_props_identity_fallback_witness :
    prop_key [] { away_team := "Dallas" }
      = prop_key [] { away_team := "Dallas", player := "Smith" }
  ∧ prop_key [] {} = "Away @ Home" :=
  ⟨group_props_identity_fallback.1 { away_team := "Dallas" }
      { away_team := "Dallas", player := "Smith" } [] (by decide) (by decide)
      (by decide) (by decide),
   group_props_identity_fallback.2 {} [] (by decide) (by decide) (by decide)⟩

/-! ## League adapter output ordering

`fetch_ncaaf_player_props` (src/props_ncaaf.py, lines 102-103) and
`fetch_nfl_player_props` (src/nfl_odds_api.py, lines 178-179) end with
`all_props.sort(key=lambda p: ...fair.prob.over... or 0.0, reverse=True)`:
a stable descending sort by fair over probability with missing values as
0.  `fetch_ufc_totals_props` (src/props_ufc.py, lines 82-204) has no such
sort.  Python's stable sort is modelled by stable insertion. -/

structure NcaafProp where
  player : String := ""
  stat : String := ""
  line : Option ℚ := none
  fair_prob_over : Option ℚ := none
  fair_prob_under : Option ℚ := none
deriving DecidableEq

/-- The sort key `((p.get("fair") or {}).get("prob") or {}).get("over")
or 0.0`. -/
def fair_over_key (p : NcaafProp) : ℚ := p.fair_prob_over.getD 0

/-- Stable insertion for a descending sort: an element passes every
earlier element with a strictly larger key and stops in front of the first
element whose key is not larger, so equal keys keep their original
order. -/
def insert_desc {α : Type} (key : α → ℚ) (x : α) : List α → List α
  | [] => [x]
  | y :: ys => if key y ≤ key x then x :: y :: ys else y :: insert_desc key x ys

/-- Model of Python `list.sort(key=..., reverse=True)`: a stable sort
descending by key. -/
def sort_props_desc {α : Type} (key : α → ℚ) (l : List α) : List α :=
  l.foldr (insert_desc key) []

/-- Embedding of the NCAAF/NFL adapter sort step. -/
def ncaaf_sort_props (l : List NcaafProp) : List NcaafProp :=
  sort_props_desc fair_over_key l

theorem insert_desc_perm {α : Type} (key : α → ℚ) (x : α) (l : List α) :
    List.Perm (insert_desc key x l) (x :: l) := by
  induction l with
  | nil => rfl
  | cons y ys ih =>
    unfold insert_desc
    by_cases h : key y ≤ key x
    · rw [if_pos h]
    · rw [if_neg h]
      refine (List.Perm.cons y ih).trans ?_
      exact List.Perm.swap x y ys

theorem sort_desc_perm {α : Type} (key : α → ℚ) (l : List α) :
    List.Perm (sort_props_desc key l) l := by
  induction l with
  | nil => rfl
  | cons x xs ih =>
    unfold sort_props_desc
    rw [List.foldr_cons]
    refine (insert_desc_perm key x _).trans ?_
    exact List.Perm.cons x ih

theorem mem_insert_desc {α : Type} (key : α → ℚ) (x z : α) (l : List α) :
    z ∈ insert_desc key x l ↔ z = x ∨ z ∈ l := by
  rw [(insert_desc_perm key x l).mem_iff, List.mem_cons]

theorem insert_desc_pairwise {α : Type} (key : α → ℚ) (x : α) (l : List α)
    (h : List.Pairwise (fun a b => key b ≤ key a) l) :
    List.Pairwise (fun a b => key b ≤ key a) (insert_desc key x l) := by
  induction l with
  | nil => simp [insert_desc]
  | cons y ys ih =>
    rw [List.pairwise_cons] at h
    unfold insert_desc
    by_cases hk : key y ≤ key x
    · rw [if_pos hk]
      rw [List.pairwise_cons]
      constructor
      · intro z hz
        rcases List.mem_cons.mp hz with rfl | hz
        · exact hk
        · exact (h.1 z hz).trans hk
      · rw [List.pairwise_cons]
        exact h
    · rw [if_neg hk]
      rw [List.pairwise_cons]
      constructor
      · intro z hz
        rcases (mem_insert_desc key x z ys).mp hz with rfl | hz
        · exact le_of_lt (lt_of_not_le hk)
        · exact h.1 z hz
      · exact ih h.2

theorem sort_desc_pairwise {α : Type} (key : α → ℚ) (l : List α) :
    List.Pairwise (fun a b => key b ≤ key a) (sort_props_desc key l) := by
  induction l with
  | nil => simp [sort_props_desc]
  | cons x xs ih =>
    unfold sort_props_desc
    rw [List.foldr_cons]
    exact insert_desc_pairwise key x _ ih

theorem insert_desc_filter {α : Type} (key : α → ℚ) (x : α) (l : List α) (c : ℚ) :
    (insert_desc key x l).filter (fun y => key y = c)
      = if key x = c then x :: l.filter (fun y => key y = c)
        else l.filter (fun y => key y = c) := by
  induction l with
  | nil =>
    by_cases hx : key x = c
    · rw [if_pos hx]
      simp only [insert_desc]
      rw [List.filter_cons_of_pos (by simp [hx])]
    · rw [if_neg hx]
      simp only [insert_desc]
      rw [List.filter_cons_of_neg (by simp [hx])]
  | cons y ys ih =>
    unfold insert_desc
    by_cases hk : key y ≤ key x
    · rw [if_pos hk]
      by_cases hx : key x = c
      · rw [if_pos hx, List.filter_cons_of_pos (by simp [hx])]
      · rw [if_neg hx, List.filter_cons_of_neg (by simp [hx])]
    · rw [if_neg hk]
      have hyx : key x < key y := lt_of_not_le hk
      by_cases hy : key y = c
      · have hx : ¬ key x = c := by
          intro hc
          rw [hc, hy] at hyx
          exact lt_irrefl c hyx
        rw [if_neg hx, List.filter_cons_of_pos (by simp [hy]),
          List.filter_cons_of_pos (by simp [hy]), ih, if_neg hx]
      · rw [List.filter_cons_of_neg (by simp [hy]), ih]
        by_cases hx : key x = c
        · rw [if_pos hx, if_pos hx, List.filter_cons_of_neg (by simp [hy])]
        · rw [if_neg hx, if_neg hx, List.filter_cons_of_neg (by simp [hy])]

theorem sort_desc_filter {α : Type} (key : α → ℚ) (l : List α) (c : ℚ) :
    (sort_props_desc key l).filter (fun y => key y = c)
      = l.filter (fun y => key y = c) := by
  induction l with
  | nil => rfl
  | cons x xs ih =>
    unfold sort_props_desc
    rw [List.foldr_cons, insert_desc_filter]
    have ih2 : List.filter (fun y => decide (key y = c)) (List.foldr (insert_desc key) [] xs)
        = List.filter (fun y => decide (key y = c)) xs := ih
    by_cases hx : key x = c
    · rw [if_pos hx, ih2, List.filter_cons_of_pos (by simp [hx])]
    · rw [if_neg hx, ih2, List.filter_cons_of_neg (by simp [hx])]

/-- Character-list test for `p` occurring at the front of `l`. -/
def starts_with_chars : List Char → List Char → Bool
  | _, [] => true
  | [], _ :: _ => false
  | c :: cs, p :: ps => c = p && starts_with_chars cs ps

/-- Character-list substring test. -/
def has_sub_chars : List Char → List Char → Bool
  | [], pat => pat.isEmpty
  | c :: cs, pat => starts_with_chars (c :: cs) pat || has_sub_chars cs pat

/-- Python `pat in s` on strings. -/
def has_sub (s pat : String) : Bool := has_sub_chars s.data pat.data

/-- A prop built by `fetch_ufc_totals_props` (src/props_ufc.py, lines
166-183). -/
structure UfcProp where
  league : String
  matchup : String
  player : String
  stat : String
  line : ℚ
  shop_over : ℤ
  shop_under : ℤ
  book : String
  fair_prob_over : Option ℚ
  fair_prob_under : Option ℚ
deriving DecidableEq

/-- The outcome scan of one totals market (src/props_ufc.py, lines
146-154): a name containing "over" overwrites the over outcome and the
line; a name containing "under" records the under outcome and sets the
line only if still unset. -/
def scan_totals : List Outcome → Option Outcome × Option Outcome × Option ℚ →
    Option Outcome × Option Outcome × Option ℚ
  | [], st => st
  | o :: rest, (ov, un, lv) =>
    if has_sub (lower_str o.name) "over" then
      scan_totals rest (some o, un, o.point)
    else if has_sub (lower_str o.name) "under" then
      scan_totals rest (ov, some o, if lv = none then o.point else lv)
    else scan_totals rest (ov, un, lv)

/-- The market loop of one bookmaker (src/props_ufc.py, lines 137-187):
the first market with the wanted key, both sides, a line and both prices
yields a prop and breaks out of the market loop; otherwise the loop keeps
scanning this bookmaker's remaining markets. -/
def market_prop (matchup market bkey : String) : List Market → Option UfcProp
  | [] => none
  | mk :: rest =>
    if mk.key = market then
      match scan_totals mk.outcomes (none, none, none) with
      | (some ov, some un, some lv) =>
        match ov.price, un.price with
        | some op, some up =>
          some { league := "ufc", matchup := matchup, player := matchup,
                 stat := "fight_total_rounds", line := lv,
                 shop_over := op, shop_under := up, book := bkey,
                 fair_prob_over := (novig_two_way (some op) (some up)).1,
                 fair_prob_under := (novig_two_way (some op) (some up)).2 }
        | _, _ => market_prop matchup market bkey rest
      | _ => market_prop matchup market bkey rest
    else market_prop matchup market bkey rest

/-- One event of `fetch_ufc_totals_props` (src/props_ufc.py, lines
130-189): every bookmaker with valid data contributes one prop per totals
market (the `break` leaves only the inner market loop, not the bookmaker
loop). -/
def process_event_totals (matchup : String) (totals_markets : List String)
    (bookmakers : List Bookmaker) : List UfcProp :=
  totals_markets.flatMap (fun market =>
    bookmakers.filterMap (fun bm => market_prop matchup market bm.key bm.markets))

/-- The upstream data already fetched for one UFC event: its id, the two
fighters, the totals market keys found in `event_markets_ufc`, and the
bookmaker odds payload. -/
structure UfcEventData where
  id : String := ""
  away_team : String := ""
  home_team : String := ""
  totals_markets : List String := []
  bookmakers : List Bookmaker := []

/-- Embedding of `fetch_ufc_totals_props` (src/props_ufc.py, lines
82-204) over the per-event payloads: events without an id or a fighter
name are skipped, the rest contribute their props in collection order,
and no sort is applied to the aggregate list. -/
def fetch_ufc_totals_props (events : List UfcEventData) : List UfcProp :=
  events.flatMap (fun ev =>
    if ev.id = "" then []
    else if ev.away_team = "" ∨ ev.home_team = "" then []
    else process_event_totals (ev.away_team ++ " vs " ++ ev.home_team)
      ev.totals_markets ev.bookmakers)

/-- One UFC event whose totals market is priced by two bookmakers: b1 has
the over at +150 (fair 0.4) and b2 at -150 (fair 0.6). -/
def c5_event : UfcEventData :=
  { id := "e1", away_team := "Fighter One", home_team := "Fighter Two",
    totals_markets := ["alternate_total_rounds"],
    bookmakers :=
      [⟨"b1", [⟨"alternate_total_rounds",
        [⟨"Over", "", some 150, some 3⟩, ⟨"Under", "", some (-150), some 3⟩]⟩]⟩,
       ⟨"b2", [⟨"alternate_total_rounds",
        [⟨"Over", "", some (-150), some 3⟩, ⟨"Under", "", some 150, some 3⟩]⟩]⟩] }

/-- C5 counterexample: the UFC adapter returns its aggregate prop list in
collection order with no sort — here the fair over probabilities come out
as [0.4, 0.6], which is not descending. -/
theorem fetch_ufc_totals_props_not_sorted :
    (fetch_ufc_totals_props [c5_event]).map (fun p => p.fair_prob_over.getD 0)
      = [2/5, 3/5]
  ∧ ¬ List.Pairwise (fun a b : ℚ => b ≤ a) [(2:ℚ)/5, 3/5] := by
  constructor
  · have h1 : novig_two_way (some 150) (some (-150)) = (some (2/5), some (3/5)) := by
      norm_num [novig_two_way, american_to_prob, novig_from_probs, round4, rhe]
    have h2 : novig_two_way (some (-150)) (some 150) = (some (3/5), some (2/5)) := by
      norm_num [novig_two_way, american_to_prob, novig_from_probs, round4, rhe]
    have hmap : (fetch_ufc_totals_props [c5_event]).map (fun p => p.fair_prob_over)
        = [(novig_two_way (some 150) (some (-150))).1,
           (novig_two_way (some (-150)) (some 150)).1] := rfl
    calc (fetch_ufc_totals_props [c5_event]).map (fun p => p.fair_prob_over.getD 0)
        = ((fetch_ufc_totals_props [c5_event]).map (fun p => p.fair_prob_over)).map
            (fun o => o.getD 0) := by rw [List.map_map]; rfl
      _ = [(novig_two_way (some 150) (some (-150))).1,
           (novig_two_way (some (-150)) (some 150)).1].map (fun o => o.getD 0) := by
            rw [hmap]
      _ = [2/5, 3/5] := by
            rw [h1, h2]
            rfl
  · intro h
    rw [List.pairwise_cons] at h
    have h35 := h.1 (3/5) (by simp)
    norm_num at h35

/-- C5 (amended): the NCAAF and NFL adapters sort their aggregate list
with a stable descending sort by fair over probability (missing treated
as 0): the result is a permutation of the collected props, its keys are
non-increasing, and props with equal keys keep their first-seen order.
The UFC adapter returns its list unsorted (see the counterexample). -/
theorem ncaaf_sort_props_spec :
    (∀ l : List NcaafProp, List.Perm (ncaaf_sort_props l) l)
  ∧ (∀ l : List NcaafProp,
      List.Pairwise (fun a b => fair_over_key b ≤ fair_over_key a) (ncaaf_sort_props l))
  ∧ (∀ (l : List NcaafProp) (c : ℚ),
      (ncaaf_sort_props l).filter (fun p => fair_over_key p = c)
        = l.filter (fun p => fair_over_key p = c)) :=
  ⟨fun l => sort_desc_perm fair_over_key l,
   fun l => sort_desc_pairwise fair_over_key l,
   fun l c => sort_desc_filter fair_over_key l c⟩
